import Mathlib

/-!
A shallow embedding of `src/buffer/circular_queue.py` (class `CircularBuffer`),
together with proofs and refutations of the specification's claims about it.

Modelling conventions:

* Python integers are `Int` where the source value can go negative (`_size`
  can be driven below zero by `dequeue` on an empty buffer in non-debug mode),
  and `Nat` where the source keeps them in `[0, capacity)` (`_head`, `_tail`,
  `_capacity`).
* A raised Python exception is the `.error` case of `Except`.  Every raise in
  the source happens before the first mutation of `self` except the numpy
  broadcast error inside `bulk_enqueue` (see below), so returning `.error`
  without a state is faithful there; no theorem below observes a state after
  an exception.
* The backing store `_items` (`np.zeros(capacity, dtype=np.int16)`) is
  modelled as a `List α` of length `capacity` over an arbitrary inhabited
  element type; the fixed-width int16 conversion applied by numpy on store is
  a storage-width detail orthogonal to the index/ordering logic the claims
  are about, and is not modelled.
* numpy slice assignment `a[i:j] = xs` requires `len(xs)` to equal the slice
  length; in `bulk_enqueue` the wrapped second segment can exceed the whole
  array (`second_part > capacity`), in which case numpy raises ValueError
  ("could not broadcast").  That case is modelled as `.error broadcastError`.
  (After a `resize` the source silently swaps the numpy array for a plain
  Python list, whose slice assignment would instead splice and change the
  list's length; no theorem below reaches a state where that divergence
  matters, and the fixed-length semantics is used throughout.)
* `List.getD xs i default` models an in-range Python indexing `xs[i]`; all
  theorems carry well-formedness hypotheses keeping those reads in range.
-/

namespace PyCircularBuffer

/-- Python exceptions raised by the source. -/
inductive Err where
  /-- a `raise ValueError(msg)` in the source -/
  | valueError : String → Err
  /-- IndexError from `new_items[i] = ...` in `resize` when `new_capacity < size` -/
  | indexError : Err
  /-- numpy "could not broadcast" ValueError in `bulk_enqueue`'s wrapped write -/
  | broadcastError : Err
deriving DecidableEq, Repr

/-- State of a `CircularBuffer` instance: the fields of `__slots__` minus the
never-used `lock`. -/
@[ext] structure CircularBuffer (α : Type) where
  items : List α
  capacity : Nat
  head : Nat
  tail : Nat
  size : Int
  OVERWRITING : Bool
  RESIZE : Bool
  DEBUG : Bool
  POW_2 : Bool
deriving Repr, DecidableEq

variable {α : Type}

/-- Source `_is_power_of_2`, as a function of a capacity value:
`self._capacity > 0 and (self._capacity & (self._capacity - 1)) == 0`. -/
def pow2_check (capacity : Nat) : Bool :=
  decide (0 < capacity) && (capacity &&& (capacity - 1) == 0)

namespace CircularBuffer

/-- Source `_is_power_of_2` on a buffer. -/
def is_power_of_2 (b : CircularBuffer α) : Bool :=
  pow2_check b.capacity

/-- Source `is_empty`: `self._size == 0`. -/
def is_empty (b : CircularBuffer α) : Bool :=
  b.size == 0

/-- Source `is_full`: `self._size == self._capacity`. -/
def is_full (b : CircularBuffer α) : Bool :=
  b.size == (b.capacity : Int)

/-- Source `_move_pointer(pointer, step)`: bitmask when the cached `_POW_2`
flag is set, modulo otherwise. -/
def move_pointer (b : CircularBuffer α) (pointer step : Nat) : Nat :=
  if b.POW_2 then (pointer + step) &&& (b.capacity - 1)
  else (pointer + step) % b.capacity

/-- Source `__init__` with `items=None` and a positive `capacity` (the only
construction any claim needs): zeroed storage, all pointers at 0. -/
def mk_buffer [Inhabited α] (capacity : Nat) (OVERWRITING RESIZE DEBUG : Bool) :
    CircularBuffer α where
  items := List.replicate capacity default
  capacity := capacity
  head := 0
  tail := 0
  size := 0
  OVERWRITING := OVERWRITING
  RESIZE := RESIZE
  DEBUG := DEBUG
  POW_2 := pow2_check capacity

/-- Shared tail of source `enqueue`: `self._items[self._head] = value` followed
by `self._head = self._move_pointer(self._head)`. -/
def write_at_head (b : CircularBuffer α) (value : α) : CircularBuffer α :=
  { b with items := b.items.set b.head value, head := b.move_pointer b.head 1 }

/-- Source `resize(new_capacity)`; `none` models the `new_capacity=None`
default.  Callers always pass an `int`, so the `isinstance` TypeError branch is
unreachable in this embedding.  The copy loop `new_items[i] = ...` raises
IndexError (before any field of `self` is assigned) exactly when the loop
reaches `i = len(new_items)`, i.e. when `size > max(new_capacity, 0)`. -/
def resize [Inhabited α] (b : CircularBuffer α) (new_capacity : Option Int) :
    Except Err (CircularBuffer α) :=
  if !b.RESIZE then .ok b
  else
    let nc : Int := new_capacity.getD (max ((b.capacity : Int) * 2) (b.size + 1))
    if nc.toNat < b.size.toNat then .error .indexError
    else
      .ok { b with
        items := (List.range nc.toNat).map (fun i =>
          if i < b.size.toNat then b.items.getD ((b.tail + i) % b.capacity) default
          else default)
        capacity := nc.toNat
        head := b.size.toNat
        tail := 0
        POW_2 := pow2_check nc.toNat }

/-- Source `enqueue(value)`. -/
def enqueue [Inhabited α] (b : CircularBuffer α) (value : α) :
    Except Err (CircularBuffer α) :=
  if b.is_full then
    if b.OVERWRITING then
      .ok (write_at_head { b with tail := b.move_pointer b.tail 1 } value)
    else if b.RESIZE then
      match b.resize none with
      | .error e => .error e
      | .ok b1 => .ok (write_at_head b1 value)
    else if b.DEBUG then
      .error (.valueError "Queue is full")
    else
      .ok (write_at_head b value)
  else
    .ok (write_at_head { b with size := b.size + 1 } value)

/-- Python/numpy slice assignment `l[start : start + len(vals)] = vals`,
assuming `start + len(vals) ≤ l.length` (every use below is guarded so). -/
def slice_set (l : List α) (start : Nat) (vals : List α) : List α :=
  l.take start ++ vals ++ l.drop (start + vals.length)

/-- Source `bulk_enqueue(items)`, line by line.  `space_in_buffer` is computed
once, before the optional resize, and reused stale afterwards, exactly as in
the source. -/
def bulk_enqueue [Inhabited α] (b : CircularBuffer α) (items : List α) :
    Except Err (CircularBuffer α) :=
  if items.isEmpty then .ok b
  else
    let input_size : Int := items.length
    let space_in_buffer : Int := (b.capacity : Int) - b.size
    let step1 : Except Err (CircularBuffer α) :=
      if b.RESIZE && decide (space_in_buffer < input_size) then
        b.resize (some (max ((b.capacity : Int) * 2) (b.size + 1)))
      else .ok b
    match step1 with
    | .error e => .error e
    | .ok b1 =>
      let truncated := !b.OVERWRITING && decide (space_in_buffer < input_size)
      let input_size : Int := if truncated then space_in_buffer else input_size
      let items : List α := if truncated then items.take space_in_buffer.toNat else items
      if input_size ≤ 0 then .ok b1
      else
        let overflow : Int := max 0 (b1.size + input_size - (b1.capacity : Int))
        let b2 :=
          if overflow ≠ 0 then
            { b1 with tail := b1.move_pointer b1.tail overflow.toNat
                      size := b1.size - overflow }
          else b1
        let first_part : Int := min input_size ((b2.capacity : Int) - (b2.head : Int))
        let second_part : Int := input_size - first_part
        if (b2.capacity : Int) < second_part then .error .broadcastError
        else
          let items_a := slice_set b2.items b2.head (items.take first_part.toNat)
          let items_b :=
            if second_part ≠ 0 then slice_set items_a 0 (items.drop first_part.toNat)
            else items_a
          .ok { b2 with
            items := items_b
            head := b2.move_pointer b2.head input_size.toNat
            size := b2.size + input_size }

/-- Source `dequeue()`.  Note the unconditional `self._size -= 1`: in
non-debug mode an empty buffer is driven to `size = -1`. -/
def dequeue [Inhabited α] (b : CircularBuffer α) :
    Except Err (α × CircularBuffer α) :=
  if b.is_empty && b.DEBUG then .error (.valueError "Circular Buffer is empty")
  else
    .ok (b.items.getD b.tail default,
      { b with tail := b.move_pointer b.tail 1, size := b.size - 1 })

/-- Source `peek()`. -/
def peek [Inhabited α] (b : CircularBuffer α) : Except Err α :=
  if b.is_empty && b.DEBUG then .error (.valueError "Circular Buffer is empty")
  else .ok (b.items.getD b.tail default)

/-- Source `bulk_dequeue(amount)`.  Faithful for `0 ≤ min amount size` (a
negative `count` would make the source take Python slices with negative
bounds; every theorem below keeps `amount ≥ 0` and `size ≥ 0`). -/
def bulk_dequeue (b : CircularBuffer α) (amount : Int) :
    Except Err (List α × CircularBuffer α) :=
  let count : Int := min amount b.size
  if count == 0 then .ok ([], b)
  else
    let first_part : Int := min count ((b.capacity : Int) - (b.tail : Int))
    let out := (b.items.drop b.tail).take first_part.toNat
    let remaining : Int := count - first_part
    let out := if 0 < remaining then out ++ b.items.take remaining.toNat else out
    .ok (out, { b with tail := b.move_pointer b.tail count.toNat,
                       size := b.size - count })

/-- Well-formedness: the invariant the source maintains between operations
when driven through its intended paths (cf. spec §3). -/
def WF (b : CircularBuffer α) : Prop :=
  0 < b.capacity ∧
  b.items.length = b.capacity ∧
  b.head < b.capacity ∧
  b.tail < b.capacity ∧
  0 ≤ b.size ∧
  b.size ≤ (b.capacity : Int) ∧
  b.head = (b.tail + b.size.toNat) % b.capacity ∧
  b.POW_2 = pow2_check b.capacity

instance (b : CircularBuffer α) [DecidableEq α] : Decidable (WF b) := by
  unfold WF; infer_instance

/-- Logical contents, oldest first: the `size` live elements starting at
`tail` (spec §3's window `[tail, tail + size)` mod capacity). -/
def toList [Inhabited α] (b : CircularBuffer α) : List α :=
  (List.range b.size.toNat).map (fun i => b.items.getD ((b.tail + i) % b.capacity) default)

end CircularBuffer

/-! Arithmetic facts about the power-of-two fast path. -/

theorem pow2_exists : ∀ n : Nat, pow2_check n = true → ∃ k, n = 2 ^ k := by
  intro n
  induction n using Nat.strong_induction_on with
  | _ n ih =>
    intro h
    simp only [pow2_check, Bool.and_eq_true, decide_eq_true_eq, beq_iff_eq] at h
    obtain ⟨hpos, hand⟩ := h
    rcases Nat.even_or_odd n with he | ho
    · obtain ⟨m, hm⟩ := he
      have hm2 : n = 2 * m := by omega
      have hmpos : 0 < m := by omega
      have hb1 : n = Nat.bit false m := by simp [Nat.bit]; omega
      have hb2 : n - 1 = Nat.bit true (m - 1) := by simp [Nat.bit]; omega
      have hand2 : m &&& (m - 1) = 0 := by
        have := hand
        rw [hb2, hb1, Nat.land_bit] at this
        simpa [Nat.bit] using this
      have hrec : pow2_check m = true := by
        simp only [pow2_check, Bool.and_eq_true, decide_eq_true_eq, beq_iff_eq]
        exact ⟨hmpos, hand2⟩
      obtain ⟨k, hk⟩ := ih m (by omega) hrec
      exact ⟨k + 1, by rw [hm2, hk]; ring⟩
    · obtain ⟨m, hm⟩ := ho
      rcases Nat.eq_zero_or_pos m with hm0 | hmpos
      · exact ⟨0, by omega⟩
      · exfalso
        have hb1 : n = Nat.bit true m := by simp [Nat.bit]; omega
        have hb2 : n - 1 = Nat.bit false m := by simp [Nat.bit]; omega
        rw [hb2, hb1, Nat.land_bit] at hand
        simp [Nat.bit, Nat.and_self] at hand
        omega

namespace CircularBuffer

theorem move_pointer_eq_mod (b : CircularBuffer α) (hp : b.POW_2 = pow2_check b.capacity)
    (p s : Nat) : b.move_pointer p s = (p + s) % b.capacity := by
  unfold move_pointer
  by_cases h : b.POW_2
  · rw [if_pos h]
    obtain ⟨k, hk⟩ := pow2_exists b.capacity (hp.symm.trans h)
    rw [hk, Nat.and_pow_two_sub_one_eq_mod]
  · rw [if_neg h]

end CircularBuffer

/-! List indexing helpers. -/

theorem getD_eq_getElem? [Inhabited α] (l : List α) (i : Nat) :
    l.getD i default = (l[i]?).getD default :=
  List.getD_eq_getElem?_getD l i default

theorem getElem?_eq_some_getD [Inhabited α] (l : List α) (i : Nat) (h : i < l.length) :
    l[i]? = some (l.getD i default) := by
  rw [getD_eq_getElem?, List.getElem?_eq_getElem h]
  rfl

namespace CircularBuffer

theorem slice_set_length (l : List α) (s : Nat) (vs : List α)
    (h : s + vs.length ≤ l.length) : (slice_set l s vs).length = l.length := by
  simp only [slice_set, List.length_append, List.length_take, List.length_drop]
  omega

theorem slice_set_getElem? (l : List α) (s : Nat) (vs : List α)
    (h : s + vs.length ≤ l.length) (j : Nat) :
    (slice_set l s vs)[j]? =
      if s ≤ j ∧ j < s + vs.length then vs[j - s]? else l[j]? := by
  have hts : (l.take s).length = s := by simp; omega
  have hassoc : slice_set l s vs = l.take s ++ (vs ++ l.drop (s + vs.length)) := by
    simp [slice_set]
  rw [hassoc, List.getElem?_append, hts]
  by_cases h1 : j < s
  · rw [if_pos h1, if_neg (by omega), List.getElem?_take, if_pos h1]
  · rw [if_neg h1, List.getElem?_append]
    by_cases h2 : j < s + vs.length
    · rw [if_pos (by omega), if_pos (by omega)]
    · rw [if_neg (by omega), if_neg (by omega), List.getElem?_drop]
      congr 1
      omega

end CircularBuffer

/-- Positions `(t + i) % c` are pairwise distinct while `i` stays within a
window shorter than `c`. -/
theorem pos_inj {c t i j : Nat} (hij : i < j) (hjc : j - i < c)
    (h : (t + i) % c = (t + j) % c) : False := by
  have h1 : t + i ≡ t + j [MOD c] := h
  have h2 : i ≡ j [MOD c] := Nat.ModEq.add_left_cancel' t h1
  have h3 : c ∣ j - i := (Nat.modEq_iff_dvd' (Nat.le_of_lt hij)).mp h2
  have h4 : c ≤ j - i := Nat.le_of_dvd (by omega) h3
  omega

/-! Single-operation step lemmas: `enqueue` below capacity and `dequeue` on a
non-empty buffer follow the textbook ring-buffer transitions, for every
policy and strictness flag. -/

namespace CircularBuffer

variable [Inhabited α]

theorem toList_length (b : CircularBuffer α) : b.toList.length = b.size.toNat := by
  simp [toList]

theorem enqueue_not_full (b : CircularBuffer α) (v : α)
    (h : b.size ≠ (b.capacity : Int)) :
    b.enqueue v = .ok (write_at_head { b with size := b.size + 1 } v) := by
  have hf : b.is_full = false := by
    simp only [is_full, beq_eq_false_iff_ne, ne_eq]
    exact h
  unfold enqueue
  rw [hf]
  simp

theorem enqueue_step_spec (b : CircularBuffer α) (v : α) (hwf : WF b)
    (h : b.size < (b.capacity : Int)) :
    ∃ b', b.enqueue v = .ok b' ∧ WF b' ∧
      b'.capacity = b.capacity ∧ b'.tail = b.tail ∧ b'.size = b.size + 1 ∧
      b'.head = (b.head + 1) % b.capacity ∧
      b'.OVERWRITING = b.OVERWRITING ∧ b'.RESIZE = b.RESIZE ∧ b'.DEBUG = b.DEBUG ∧
      b'.POW_2 = b.POW_2 ∧ b'.items = b.items.set b.head v ∧
      b'.toList = b.toList ++ [v] := by
  obtain ⟨hc, hlen, hh, ht, hs0, hsc, hht, hp⟩ := hwf
  set n := b.size.toNat with hn
  have hncap : n < b.capacity := by omega
  have hsucc : (b.size + 1).toNat = n + 1 := by omega
  refine ⟨write_at_head { b with size := b.size + 1 } v,
    enqueue_not_full b v (by omega), ?_, rfl, rfl, rfl, ?_, rfl, rfl, rfl, rfl, rfl, ?_⟩
  case _ =>
    -- well-formedness of the successor state
    have hhead : (write_at_head { b with size := b.size + 1 } v).head =
        (b.head + 1) % b.capacity :=
      move_pointer_eq_mod { b with size := b.size + 1 } hp b.head 1
    refine ⟨hc, ?_, ?_, ht, (by omega : (0:Int) ≤ b.size + 1),
      (by omega : b.size + 1 ≤ (b.capacity : Int)), ?_, hp⟩
    · simpa [write_at_head] using hlen
    · rw [hhead]; exact Nat.mod_lt _ hc
    · show (write_at_head { b with size := b.size + 1 } v).head =
        (b.tail + (b.size + 1).toNat) % b.capacity
      rw [hhead, hsucc, hht, Nat.mod_add_mod, Nat.add_assoc]
  case _ =>
    exact move_pointer_eq_mod { b with size := b.size + 1 } hp b.head 1
  case _ =>
    -- contents grow by one element at the head
    show (List.range (b.size + 1).toNat).map _ = _ ++ [v]
    rw [hsucc, List.range_succ, List.map_append]
    congr 1
    · apply List.map_congr_left
      intro i hi
      have hilt : i < n := List.mem_range.mp hi
      have hne : b.head ≠ (b.tail + i) % b.capacity := by
        intro hcontra
        exact pos_inj hilt (by omega) (hcontra.symm.trans hht)
      show (b.items.set b.head v).getD ((b.tail + i) % b.capacity) default = _
      rw [getD_eq_getElem?, List.getElem?_set_ne hne, ← getD_eq_getElem?]
    · show [(b.items.set b.head v).getD ((b.tail + n) % b.capacity) default] = [v]
      rw [← hht, getD_eq_getElem?, List.getElem?_set_self (by omega)]
      rfl

theorem dequeue_nonempty (b : CircularBuffer α) (h : b.size ≠ 0) :
    b.dequeue = .ok (b.items.getD b.tail default,
      { b with tail := b.move_pointer b.tail 1, size := b.size - 1 }) := by
  have he : b.is_empty = false := by
    simp only [is_empty, beq_eq_false_iff_ne, ne_eq]
    exact h
  unfold dequeue
  rw [he]
  simp

theorem dequeue_step_spec (b : CircularBuffer α) (hwf : WF b) (h : 0 < b.size) :
    ∃ b', b.dequeue = .ok (b.items.getD b.tail default, b') ∧ WF b' ∧
      b'.capacity = b.capacity ∧ b'.items = b.items ∧ b'.size = b.size - 1 ∧
      b'.tail = (b.tail + 1) % b.capacity ∧ b'.head = b.head ∧
      b'.OVERWRITING = b.OVERWRITING ∧ b'.RESIZE = b.RESIZE ∧ b'.DEBUG = b.DEBUG ∧
      b'.POW_2 = b.POW_2 ∧
      b.toList = b.items.getD b.tail default :: b'.toList := by
  obtain ⟨hc, hlen, hh, ht, hs0, hsc, hht, hp⟩ := hwf
  set n := b.size.toNat with hn
  have hn1 : 1 ≤ n := by omega
  have hmv : b.move_pointer b.tail 1 = (b.tail + 1) % b.capacity :=
    move_pointer_eq_mod b hp b.tail 1
  have hpred : (b.size - 1).toNat = n - 1 := by omega
  refine ⟨{ b with tail := b.move_pointer b.tail 1, size := b.size - 1 },
    dequeue_nonempty b (by omega), ?_, rfl, rfl, rfl, hmv, rfl, rfl, rfl, rfl, rfl, ?_⟩
  case _ =>
    refine ⟨hc, hlen, hh, by rw [hmv]; exact Nat.mod_lt _ hc,
      (by omega : (0:Int) ≤ b.size - 1),
      (by omega : b.size - 1 ≤ (b.capacity : Int)), ?_, hp⟩
    show b.head = (b.move_pointer b.tail 1 + (b.size - 1).toNat) % b.capacity
    rw [hmv, hpred, Nat.mod_add_mod, hht]
    congr 1
    omega
  case _ =>
    -- contents lose their oldest element
    show (List.range n).map _ =
      _ :: (List.range (b.size - 1).toNat).map _
    rw [hpred]
    obtain ⟨m, hm⟩ : ∃ m, n = m + 1 := ⟨n - 1, by omega⟩
    rw [hm, List.range_succ_eq_map, List.map_cons]
    have h0 : (b.tail + 0) % b.capacity = b.tail := by
      rw [Nat.add_zero]; exact Nat.mod_eq_of_lt ht
    rw [List.map_map]
    congr 1
    · rw [h0]
    · rw [show m + 1 - 1 = m from rfl]
      apply List.map_congr_left
      intro i _
      show b.items.getD ((b.tail + Nat.succ i) % b.capacity) default =
        b.items.getD ((b.move_pointer b.tail 1 + i) % b.capacity) default
      rw [hmv, Nat.mod_add_mod]
      congr 2
      omega

end CircularBuffer

/-! Operation traces, for the FIFO claim. -/

/-- A single public call in an enqueue/dequeue trace. -/
inductive Op (α : Type) where
  | enq : α → Op α
  | deq : Op α
deriving Repr, DecidableEq

/-- A trace is legal from abstract size `size` when no `enq` happens at
capacity and no `deq` happens at size 0. -/
def legal (cap : Nat) : Int → List (Op α) → Bool
  | _, [] => true
  | size, .enq _ :: ops => decide (size < (cap : Int)) && legal cap (size + 1) ops
  | size, .deq :: ops => decide (0 < size) && legal cap (size - 1) ops

/-- Values passed to the enqueue calls of a trace, in call order. -/
def enq_values : List (Op α) → List α
  | [] => []
  | .enq v :: ops => v :: enq_values ops
  | .deq :: ops => enq_values ops

/-- Number of dequeue calls in a trace. -/
def deq_count : List (Op α) → Nat
  | [] => 0
  | .enq _ :: ops => deq_count ops
  | .deq :: ops => deq_count ops + 1

/-- Run a trace against the buffer, collecting the dequeued values in order. -/
def run_ops [Inhabited α] (b : CircularBuffer α) :
    List (Op α) → Except Err (CircularBuffer α × List α)
  | [] => .ok (b, [])
  | .enq v :: ops =>
    match b.enqueue v with
    | .error e => .error e
    | .ok b' => run_ops b' ops
  | .deq :: ops =>
    match b.dequeue with
    | .error e => .error e
    | .ok (v, b') =>
      match run_ops b' ops with
      | .error e => .error e
      | .ok (bf, outs) => .ok (bf, v :: outs)

open CircularBuffer in
/-- Simulation: a legal trace runs without error, dequeues the prefix of
`current contents ++ enqueued values`, and leaves the rest as contents. -/
theorem run_ops_sim [Inhabited α] : ∀ (ops : List (Op α)) (b : CircularBuffer α),
    WF b → legal b.capacity b.size ops = true →
    ∃ bf, run_ops b ops = .ok (bf, (b.toList ++ enq_values ops).take (deq_count ops)) ∧
      WF bf ∧ bf.toList = (b.toList ++ enq_values ops).drop (deq_count ops) := by
  intro ops
  induction ops with
  | nil =>
    intro b hwf _
    exact ⟨b, by simp [run_ops, enq_values, deq_count], hwf,
      by simp [enq_values, deq_count]⟩
  | cons op ops ih =>
    intro b hwf hleg
    cases op with
    | enq v =>
      simp only [legal, Bool.and_eq_true, decide_eq_true_eq] at hleg
      obtain ⟨hlt, hleg⟩ := hleg
      obtain ⟨b', henq, hwf', hcap, -, hsz, -, -, -, -, -, -, htl'⟩ :=
        enqueue_step_spec b v hwf hlt
      have hleg' : legal b'.capacity b'.size ops = true := by
        rw [hcap, hsz]; exact hleg
      obtain ⟨bf, hrun, hwff, htlf⟩ := ih b' hwf' hleg'
      refine ⟨bf, ?_, hwff, ?_⟩
      · simp only [run_ops, henq, hrun, htl', enq_values, deq_count,
          List.append_assoc, List.singleton_append]
      · rw [htlf, htl', enq_values, deq_count, List.append_assoc,
          List.singleton_append]
    | deq =>
      simp only [legal, Bool.and_eq_true, decide_eq_true_eq] at hleg
      obtain ⟨hpos, hleg⟩ := hleg
      obtain ⟨b', hdeq, hwf', hcap, -, hsz, -, -, -, -, -, -, htl'⟩ :=
        dequeue_step_spec b hwf hpos
      have hleg' : legal b'.capacity b'.size ops = true := by
        rw [hcap, hsz]; exact hleg
      obtain ⟨bf, hrun, hwff, htlf⟩ := ih b' hwf' hleg'
      refine ⟨bf, ?_, hwff, ?_⟩
      · simp only [run_ops, hdeq, hrun, enq_values, deq_count, htl',
          List.cons_append, List.take_succ_cons]
      · rw [htlf, htl', enq_values, deq_count, List.cons_append,
          List.drop_succ_cons]

open CircularBuffer in
/-- C1: from a freshly-constructed buffer of positive capacity, under every
overflow policy and strictness flag, a trace of enqueue/dequeue calls in which
no enqueue hits a full buffer and no dequeue hits an empty buffer runs without
error, the dequeued values are the prefix of the enqueued values, and hence
the n-th dequeue returns the value passed to the n-th enqueue. -/
theorem claim_c1_fifo (cap : Nat) (ow rs dbg : Bool) (ops : List (Op Int))
    (hcap : 0 < cap) (hleg : legal cap 0 ops = true) :
    ∃ bf, run_ops (mk_buffer cap ow rs dbg) ops =
        .ok (bf, (enq_values ops).take (deq_count ops)) ∧
      ∀ n < deq_count ops,
        ((enq_values ops).take (deq_count ops))[n]? = (enq_values ops)[n]? := by
  have hwf : WF (mk_buffer cap ow rs dbg : CircularBuffer Int) :=
    ⟨hcap, by simp [mk_buffer], hcap, hcap, le_refl 0,
      by show (0:Int) ≤ ((cap:Nat):Int); exact_mod_cast Nat.zero_le cap,
      by simp [mk_buffer], rfl⟩
  have htl : (mk_buffer cap ow rs dbg : CircularBuffer Int).toList = [] := by
    simp [toList, mk_buffer]
  obtain ⟨bf, hrun, -, -⟩ := run_ops_sim ops (mk_buffer cap ow rs dbg) hwf hleg
  rw [htl, List.nil_append] at hrun
  refine ⟨bf, hrun, ?_⟩
  intro n hn
  rw [List.getElem?_take, if_pos hn]

open CircularBuffer in
/-- Witness for C1 at a concrete instance: capacity 2, two enqueues then two
dequeues return the two values in order. -/
theorem claim_c1_fifo_witness :
    ∃ bf, run_ops (mk_buffer 2 false false false)
        [Op.enq (10:Int), Op.enq 20, Op.deq, Op.deq] = .ok (bf, [10, 20]) := by
  obtain ⟨bf, hrun, -⟩ := claim_c1_fifo 2 false false false
    [Op.enq (10:Int), Op.enq 20, Op.deq, Op.deq] (by decide) (by decide)
  have hv : (enq_values [Op.enq (10:Int), Op.enq 20, Op.deq, Op.deq]).take
      (deq_count [Op.enq (10:Int), Op.enq 20, Op.deq, Op.deq]) = [10, 20] := rfl
  exact ⟨bf, by rw [hrun, hv]⟩

/-! Iterated single-element operations, the reference point for the bulk
operations' equivalence claims. -/

/-- The sequence of single `enqueue` calls "equivalent" to a `bulk_enqueue`. -/
def enqueue_list [Inhabited α] (b : CircularBuffer α) :
    List α → Except Err (CircularBuffer α)
  | [] => .ok b
  | v :: vs =>
    match b.enqueue v with
    | .error e => .error e
    | .ok b' => enqueue_list b' vs

/-- The sequence of `n` single `dequeue` calls "equivalent" to a
`bulk_dequeue`, collecting the dequeued values in order. -/
def dequeue_times [Inhabited α] (b : CircularBuffer α) :
    Nat → Except Err (List α × CircularBuffer α)
  | 0 => .ok ([], b)
  | n + 1 =>
    match b.dequeue with
    | .error e => .error e
    | .ok (v, b') =>
      match dequeue_times b' n with
      | .error e => .error e
      | .ok (vs, bf) => .ok (v :: vs, bf)

theorem getElem?_map_range (f : Nat → α) (n k : Nat) :
    ((List.range n).map f)[k]? = if k < n then some (f k) else none := by
  by_cases h : k < n
  · rw [if_pos h, List.getElem?_map, List.getElem?_range h]
    rfl
  · rw [if_neg h, List.getElem?_map,
      List.getElem?_eq_none (by simpa using Nat.le_of_not_lt h)]
    rfl

open CircularBuffer in
/-- Iterating single enqueues that all fit below capacity: no error, size and
head advance by the number of values, the values land at the successive
wrapped positions after the old head, all other storage cells are untouched,
and the logical contents are extended. -/
theorem enqueue_list_fits [Inhabited α] : ∀ (vs : List α) (b : CircularBuffer α),
    WF b → (vs.length : Int) ≤ (b.capacity : Int) - b.size →
    ∃ b', enqueue_list b vs = .ok b' ∧ WF b' ∧
      b'.capacity = b.capacity ∧ b'.tail = b.tail ∧
      b'.size = b.size + vs.length ∧
      b'.head = (b.head + vs.length) % b.capacity ∧
      b'.OVERWRITING = b.OVERWRITING ∧ b'.RESIZE = b.RESIZE ∧
      b'.DEBUG = b.DEBUG ∧ b'.POW_2 = b.POW_2 ∧
      b'.items.length = b.capacity ∧
      (∀ i < vs.length, b'.items[(b.head + i) % b.capacity]? = vs[i]?) ∧
      (∀ j, (∀ i < vs.length, (b.head + i) % b.capacity ≠ j) →
        b'.items[j]? = b.items[j]?) ∧
      b'.toList = b.toList ++ vs := by
  intro vs
  induction vs with
  | nil =>
    intro b hwf _
    obtain ⟨hc, hlen, hh, ht, hs0, hsc, hht, hp⟩ := hwf
    refine ⟨b, rfl, ⟨hc, hlen, hh, ht, hs0, hsc, hht, hp⟩, rfl, rfl, by simp, ?_,
      rfl, rfl, rfl, rfl, hlen, ?_, ?_, by simp⟩
    · simp [Nat.mod_eq_of_lt hh]
    · intro i hi; simp at hi
    · intro j _; rfl
  | cons v rest ih =>
    intro b hwf hfit
    have hlen1 : (1 : Int) ≤ (rest.length + 1 : Nat) := by push_cast; omega
    have hcap : 0 < b.capacity := hwf.1
    have hlencap : rest.length + 1 ≤ b.capacity := by
      have := hwf.2.2.2.2.1
      simp only [List.length_cons] at hfit
      push_cast at hfit ⊢
      omega
    obtain ⟨b1, henq, hwf1, hcap1, htail1, hsz1, hhd1, hO1, hR1, hD1, hP1, hit1, htl1⟩ :=
      enqueue_step_spec b v hwf (by simp only [List.length_cons] at hfit; push_cast at hfit; omega)
    have hfit1 : (rest.length : Int) ≤ (b1.capacity : Int) - b1.size := by
      rw [hcap1, hsz1]
      simp only [List.length_cons] at hfit
      push_cast at hfit ⊢
      omega
    obtain ⟨b2, hrun, hwf2, hcap2, htail2, hsz2, hhd2, hO2, hR2, hD2, hP2, hil2, hA2, hB2, htl2⟩ :=
      ih b1 hwf1 hfit1
    have hblen : b.items.length = b.capacity := hwf.2.1
    have hhlt : b.head < b.capacity := hwf.2.2.1
    refine ⟨b2, ?_, hwf2, hcap2.trans hcap1, htail2.trans htail1, ?_, ?_,
      hO2.trans hO1, hR2.trans hR1, hD2.trans hD1, hP2.trans hP1,
      by rw [hil2, hcap1], ?_, ?_, ?_⟩
    · simp only [enqueue_list, henq, hrun]
    · rw [hsz2, hsz1]
      simp only [List.length_cons]
      push_cast
      ring
    · rw [hhd2, hhd1, hcap1, Nat.mod_add_mod]
      simp only [List.length_cons]
      congr 1
      omega
    · -- values land in order
      intro i hi
      simp only [List.length_cons] at hi
      cases i with
      | zero =>
        have hne : ∀ k < rest.length, (b1.head + k) % b1.capacity ≠ (b.head + 0) % b.capacity := by
          intro k hk hcontra
          rw [hhd1, hcap1, Nat.mod_add_mod,
            show b.head + 1 + k = b.head + (k + 1) from by ring] at hcontra
          exact pos_inj (Nat.zero_lt_succ k) (by omega) (hcontra.symm)
        rw [hB2 _ hne, hit1, Nat.add_zero, Nat.mod_eq_of_lt hhlt,
          List.getElem?_set_self (by omega)]
        simp
      | succ k =>
        have hk : k < rest.length := by omega
        have := hA2 k hk
        rw [hhd1, hcap1, Nat.mod_add_mod,
          show b.head + 1 + k = b.head + (k + 1) from by ring] at this
        rw [this]
        simp
    · -- untouched cells
      intro j hj
      have hj1 : ∀ k < rest.length, (b1.head + k) % b1.capacity ≠ j := by
        intro k hk
        rw [hhd1, hcap1, Nat.mod_add_mod,
          show b.head + 1 + k = b.head + (k + 1) from by ring]
        exact hj (k + 1) (by simpa using Nat.succ_lt_succ hk)
      rw [hB2 j hj1, hit1, List.getElem?_set_ne]
      have := hj 0 (by simp)
      rw [Nat.add_zero, Nat.mod_eq_of_lt hhlt] at this
      exact this
    · rw [htl2, htl1, List.append_assoc, List.singleton_append]

/-! The two-segment wrapped write of `bulk_enqueue`, characterized pointwise. -/

open CircularBuffer in
/-- The storage produced by `bulk_enqueue`'s write phase: first run of
`min len (capacity - head)` values at `[head, ...)`, wrapped remainder at
`[0, ...)`. -/
def wrap_write (l : List α) (cap hd : Nat) (vs : List α) : List α :=
  if vs.length - min vs.length (cap - hd) ≠ 0 then
    slice_set (slice_set l hd (vs.take (min vs.length (cap - hd)))) 0
      (vs.drop (min vs.length (cap - hd)))
  else slice_set l hd (vs.take (min vs.length (cap - hd)))

theorem mod_eq_sub_of_lt_two {cap a : Nat} (h1 : cap ≤ a) (h2 : a < 2 * cap) :
    a % cap = a - cap := by
  rw [Nat.mod_eq_sub_mod h1, Nat.mod_eq_of_lt (by omega)]

open CircularBuffer in
theorem wrap_write_spec (l : List α) (cap hd : Nat) (vs : List α)
    (hlen : l.length = cap) (hh : hd < cap) (hn : vs.length ≤ cap) :
    (wrap_write l cap hd vs).length = cap ∧
    (∀ i < vs.length, (wrap_write l cap hd vs)[(hd + i) % cap]? = vs[i]?) ∧
    (∀ j, (∀ i < vs.length, (hd + i) % cap ≠ j) →
      (wrap_write l cap hd vs)[j]? = l[j]?) := by
  unfold wrap_write
  set fp := min vs.length (cap - hd) with hfp
  have hfple : fp ≤ vs.length := Nat.min_le_left _ _
  have hfpcap : hd + fp ≤ cap := by omega
  have htake : (vs.take fp).length = fp := by rw [List.length_take]; omega
  have hb1 : hd + (vs.take fp).length ≤ l.length := by rw [htake]; omega
  have hla : (slice_set l hd (vs.take fp)).length = l.length :=
    slice_set_length _ _ _ hb1
  by_cases hsp : vs.length - fp = 0
  · -- no wrap: a single contiguous run
    have hfpv : fp = vs.length := by omega
    rw [if_neg (by omega)]
    refine ⟨by rw [hla, hlen], ?_, ?_⟩
    · intro i hi
      rw [Nat.mod_eq_of_lt (by omega), slice_set_getElem? _ _ _ hb1, htake,
        if_pos ⟨Nat.le_add_right _ _, by omega⟩, Nat.add_sub_cancel_left,
        List.getElem?_take, if_pos (by omega)]
    · intro j hj
      rw [slice_set_getElem? _ _ _ hb1, htake, if_neg]
      rintro ⟨h1, h2⟩
      exact hj (j - hd) (by omega) (by rw [Nat.mod_eq_of_lt (by omega)]; omega)
  · -- wrapped second segment
    have hfpe : fp = cap - hd := by omega
    have hsple : vs.length - fp ≤ hd := by omega
    have hdrop : (vs.drop fp).length = vs.length - fp := by simp
    have hb2 : 0 + (vs.drop fp).length ≤ (slice_set l hd (vs.take fp)).length := by
      rw [hla, hdrop, hlen]; omega
    rw [if_pos hsp]
    refine ⟨by rw [slice_set_length _ _ _ hb2, hla, hlen], ?_, ?_⟩
    · intro i hi
      by_cases hifp : i < fp
      · rw [Nat.mod_eq_of_lt (by omega), slice_set_getElem? _ _ _ hb2, hdrop,
          if_neg (by omega), slice_set_getElem? _ _ _ hb1, htake,
          if_pos ⟨by omega, by omega⟩, Nat.add_sub_cancel_left,
          List.getElem?_take, if_pos hifp]
      · have hpos : (hd + i) % cap = i - fp := by
          rw [mod_eq_sub_of_lt_two (by omega) (by omega)]
          omega
        rw [hpos, slice_set_getElem? _ _ _ hb2, hdrop,
          if_pos ⟨by omega, by omega⟩, Nat.sub_zero, List.getElem?_drop]
        congr 1
        omega
    · intro j hj
      have hj1 : ¬(j < vs.length - fp) := by
        intro hlt
        exact hj (fp + j) (by omega) (by
          rw [show hd + (fp + j) = cap + j from by omega, Nat.add_mod_left,
            Nat.mod_eq_of_lt (by omega)])
      have hj2 : ¬(hd ≤ j ∧ j < hd + fp) := by
        rintro ⟨h1, h2⟩
        exact hj (j - hd) (by omega) (by rw [Nat.mod_eq_of_lt (by omega)]; omega)
      rw [slice_set_getElem? _ _ _ hb2, hdrop, if_neg (by omega),
        slice_set_getElem? _ _ _ hb1, htake, if_neg hj2]

open CircularBuffer in
/-- `bulk_enqueue` on input that fits in the free space reduces to: no resize,
no truncation, no eviction, a wrapped two-segment write, head advanced by the
input length, size increased by it. -/
theorem bulk_enqueue_eq_of_fits [Inhabited α] (b : CircularBuffer α) (vs : List α)
    (hwf : WF b) (hfit : (vs.length : Int) ≤ (b.capacity : Int) - b.size)
    (hne : vs ≠ []) :
    bulk_enqueue b vs = .ok { b with
      items := wrap_write b.items b.capacity b.head vs
      head := (b.head + vs.length) % b.capacity
      size := b.size + vs.length } := by
  obtain ⟨hc, hlen, hh, ht, hs0, hsc, hht, hp⟩ := hwf
  have hemp : vs.isEmpty = false := by
    cases vs with
    | nil => exact absurd rfl hne
    | cons a l => rfl
  have hnlen : 0 < vs.length := List.length_pos.mpr hne
  have hdec : decide ((b.capacity : Int) - b.size < (vs.length : Int)) = false :=
    decide_eq_false (by omega)
  have hpos : ¬((vs.length : Int) ≤ 0) := by omega
  have hov : max 0 (b.size + (vs.length : Int) - (b.capacity : Int)) = 0 := by omega
  have hfpn : (min ((vs.length : Int)) ((b.capacity : Int) - (b.head : Int))).toNat =
      min vs.length (b.capacity - b.head) := by omega
  have hnoerr : ¬((b.capacity : Int) <
      (vs.length : Int) - min ((vs.length : Int)) ((b.capacity : Int) - (b.head : Int))) := by
    omega
  have htonat : ((vs.length : Int)).toNat = vs.length := by omega
  unfold bulk_enqueue
  rw [hemp]
  simp only [Bool.false_eq_true, if_false, hdec, Bool.and_false, if_neg hpos, hov]
  simp only [show ((0:Int) ≠ 0) ↔ False from by simp, if_false]
  rw [if_neg hnoerr]
  rw [move_pointer_eq_mod b hp, htonat]
  by_cases hw : vs.length - min vs.length (b.capacity - b.head) = 0
  · rw [if_neg (by omega), wrap_write, if_neg (by omega), hfpn]
  · rw [if_pos (by omega), wrap_write, if_pos (by omega), hfpn]

open CircularBuffer in
/-- Refinement for the fitting case: `bulk_enqueue` of input not exceeding the
free space is literally the sequence of single enqueues, state and all. -/
theorem bulk_enqueue_fits [Inhabited α] (b : CircularBuffer α) (vs : List α)
    (hwf : WF b) (hfit : (vs.length : Int) ≤ (b.capacity : Int) - b.size) :
    bulk_enqueue b vs = enqueue_list b vs := by
  rcases eq_or_ne vs [] with rfl | hne
  · rfl
  · obtain ⟨hc, hlen, hh, ht, hs0, hsc, hht, hp⟩ := hwf
    have hncap : vs.length ≤ b.capacity := by omega
    obtain ⟨hwl, hwa, hwb⟩ := wrap_write_spec b.items b.capacity b.head vs hlen hh hncap
    obtain ⟨b', hrun, hwf', hcapb, htailb, hszb, hhdb, hOb, hRb, hDb, hPb, hilb, hA, hB, -⟩ :=
      enqueue_list_fits vs b ⟨hc, hlen, hh, ht, hs0, hsc, hht, hp⟩ hfit
    rw [bulk_enqueue_eq_of_fits b vs ⟨hc, hlen, hh, ht, hs0, hsc, hht, hp⟩ hfit hne, hrun]
    congr 1
    apply CircularBuffer.ext
    · -- storage cells coincide pointwise
      apply List.ext_getElem?
      intro j
      by_cases hex : ∃ i, i < vs.length ∧ (b.head + i) % b.capacity = j
      · obtain ⟨i, hi, hij⟩ := hex
        rw [← hij, hwa i hi, hA i hi]
      · push_neg at hex
        rw [hwb j (fun i hi => hex i hi), hB j (fun i hi => hex i hi)]
    · exact hcapb.symm
    · exact hhdb.symm
    · exact htailb.symm
    · exact hszb.symm
    · exact hOb.symm
    · exact hRb.symm
    · exact hDb.symm
    · exact hPb.symm

open CircularBuffer in
/-- Iterating `n ≤ size` single dequeues: no error, the outputs are the first
`n` cells of the logical window, tail advances by `n`, size drops by `n`, and
storage is untouched. -/
theorem dequeue_times_spec [Inhabited α] : ∀ (c : Nat) (b : CircularBuffer α),
    WF b → (c : Int) ≤ b.size →
    ∃ bf, dequeue_times b c = .ok ((List.range c).map
        (fun i => b.items.getD ((b.tail + i) % b.capacity) default), bf) ∧
      WF bf ∧ bf.items = b.items ∧ bf.capacity = b.capacity ∧ bf.head = b.head ∧
      bf.tail = (b.tail + c) % b.capacity ∧ bf.size = b.size - c ∧
      bf.OVERWRITING = b.OVERWRITING ∧ bf.RESIZE = b.RESIZE ∧
      bf.DEBUG = b.DEBUG ∧ bf.POW_2 = b.POW_2 := by
  intro c
  induction c with
  | zero =>
    intro b hwf _
    refine ⟨b, by simp [dequeue_times], hwf, rfl, rfl, rfl, ?_, by push_cast; ring,
      rfl, rfl, rfl, rfl⟩
    rw [Nat.add_zero, Nat.mod_eq_of_lt hwf.2.2.2.1]
  | succ c ih =>
    intro b hwf hcs
    have hpos : 0 < b.size := by push_cast at hcs; omega
    have ht : b.tail < b.capacity := hwf.2.2.2.1
    obtain ⟨b1, hdeq, hwf1, hcap1, hit1, hsz1, htl1, hhd1, hO1, hR1, hD1, hP1, -⟩ :=
      dequeue_step_spec b hwf hpos
    have hcs1 : (c : Int) ≤ b1.size := by rw [hsz1]; push_cast at hcs ⊢; omega
    obtain ⟨bf, hrun, hwff, hitf, hcapf, hhdf, htlf, hszf, hOf, hRf, hDf, hPf⟩ :=
      ih b1 hwf1 hcs1
    have houts : (List.range (c + 1)).map
        (fun i => b.items.getD ((b.tail + i) % b.capacity) default) =
        b.items.getD b.tail default :: (List.range c).map
          (fun i => b1.items.getD ((b1.tail + i) % b1.capacity) default) := by
      rw [List.range_succ_eq_map, List.map_cons, List.map_map]
      congr 1
      · simp [Nat.mod_eq_of_lt ht]
      · apply List.map_congr_left
        intro i _
        simp only [Function.comp_apply]
        rw [hit1, htl1, hcap1, Nat.mod_add_mod]
        congr 2
        omega
    refine ⟨bf, ?_, hwff, hitf.trans hit1, hcapf.trans hcap1, hhdf.trans hhd1,
      ?_, ?_, hOf.trans hO1, hRf.trans hR1, hDf.trans hD1, hPf.trans hP1⟩
    · simp only [dequeue_times, hdeq, hrun, houts]
    · rw [htlf, htl1, hcap1, Nat.mod_add_mod]
      congr 1
      omega
    · rw [hszf, hsz1]
      push_cast
      ring

open CircularBuffer in
/-- Refinement: `bulk_dequeue amount` (`amount ≥ 0`) returns exactly what
`min amount size` single dequeues return, and leaves the same state. -/
theorem bulk_dequeue_eq_singles [Inhabited α] (b : CircularBuffer α) (m : Int)
    (hwf : WF b) (hm : 0 ≤ m) :
    ∃ outs b', bulk_dequeue b m = .ok (outs, b') ∧
      dequeue_times b (min m b.size).toNat = .ok (outs, b') := by
  obtain ⟨hc, hlen, hh, ht, hs0, hsc, hht, hp⟩ := hwf
  by_cases hz : min m b.size = 0
  · refine ⟨[], b, ?_, ?_⟩
    · unfold bulk_dequeue
      rw [if_pos (by simpa using hz)]
    · rw [hz]
      rfl
  · have hcpos : 0 < min m b.size := by omega
    set cn := (min m b.size).toNat with hcn
    have hcnpos : 0 < cn := by omega
    have hcncast : (cn : Int) = min m b.size := by omega
    have hcnsz : cn ≤ b.size.toNat := by omega
    obtain ⟨bf, hrun, hwff, hitf, hcapf, hhdf, htlf, hszf, hOf, hRf, hDf, hPf⟩ :=
      dequeue_times_spec cn b ⟨hc, hlen, hh, ht, hs0, hsc, hht, hp⟩ (by omega)
    refine ⟨_, bf, ?_, hrun⟩
    have hbeq : (min m b.size == (0:Int)) = false := by simpa using hz
    simp only [bulk_dequeue, hbeq, Bool.false_eq_true, if_false]
    have htn : (min m b.size).toNat = cn := rfl
    have hfp : (min (min m b.size) ((b.capacity : Int) - (b.tail : Int))).toNat =
        min cn (b.capacity - b.tail) := by omega
    congr 1
    congr 1
    · -- the dequeued values
      apply List.ext_getElem?
      intro k
      rw [getElem?_map_range]
      by_cases hwrap : cn ≤ b.capacity - b.tail
      · -- single run
        have hfp1 : min (min m b.size) ((b.capacity : Int) - (b.tail : Int)) =
            min m b.size := by omega
        rw [if_neg (by omega), hfp1, htn]
        rw [List.getElem?_take]
        by_cases hk : k < cn
        · rw [if_pos hk, if_pos hk, List.getElem?_drop,
            getElem?_eq_some_getD _ _ (by omega)]
          congr 1
          rw [Nat.mod_eq_of_lt (by omega)]
        · rw [if_neg hk, if_neg hk]
      · -- wrapped run
        have hfp2 : min (min m b.size) ((b.capacity : Int) - (b.tail : Int)) =
            (b.capacity : Int) - (b.tail : Int) := by omega
        rw [if_pos (by omega), hfp2]
        have htn2 : ((b.capacity : Int) - (b.tail : Int)).toNat = b.capacity - b.tail := by
          omega
        have htr : ((min m b.size) - ((b.capacity : Int) - (b.tail : Int))).toNat =
            cn - (b.capacity - b.tail) := by omega
        rw [htn2, htr, List.getElem?_append]
        have hlt1 : ((b.items.drop b.tail).take (b.capacity - b.tail)).length =
            b.capacity - b.tail := by
          simp [hlen]
        rw [hlt1]
        by_cases hk1 : k < b.capacity - b.tail
        · rw [if_pos hk1, if_pos (by omega), List.getElem?_take, if_pos hk1,
            List.getElem?_drop, getElem?_eq_some_getD _ _ (by omega)]
          congr 1
          rw [Nat.mod_eq_of_lt (by omega)]
        · rw [if_neg hk1, List.getElem?_take]
          by_cases hk2 : k < cn
          · rw [if_pos (by omega), if_pos hk2,
              getElem?_eq_some_getD _ _ (by omega)]
            congr 2
            rw [mod_eq_sub_of_lt_two (by omega) (by omega)]
            omega
          · rw [if_neg (by omega), if_neg hk2]
    · -- the final state
      apply CircularBuffer.ext
      · exact hitf.symm
      · exact hcapf.symm
      · exact hhdf.symm
      · rw [htlf, move_pointer_eq_mod b hp, htn]
      · rw [hszf, hcncast]
      · exact hOf.symm
      · exact hRf.symm
      · exact hDf.symm
      · exact hPf.symm

/-! Concrete evaluations: failing inputs and counterexamples. -/

open CircularBuffer in
/-- C3 (failing input): dequeue on a freshly constructed, empty capacity-1
buffer in non-strict mode succeeds and drives `size` to -1, violating the
claimed invariant `0 ≤ size` after every public operation (`self._size -= 1`
runs unconditionally in `dequeue`). -/
theorem claim_c3_underflow :
    ∃ v b', dequeue (mk_buffer 1 false false false : CircularBuffer Int) =
      .ok (v, b') ∧ b'.size = -1 := by
  exact ⟨_, _, rfl, rfl⟩

open CircularBuffer in
/-- C4 (failing input): a full capacity-2 Reject buffer holding [10, 20]
(head = tail = 0).  In strict mode `enqueue 30` raises and the state is
untouched, but in non-strict mode it is not a no-op: the value is written at
head (overwriting the oldest element 10), head advances to 1, and the next
dequeue returns 30 instead of 10. -/
theorem claim_c4_nonstrict_overwrites :
    (∃ b2 b3 v b4,
      run_ops (mk_buffer 2 false false false) [Op.enq (10:Int), Op.enq 20] =
        .ok (b2, []) ∧
      enqueue b2 30 = .ok b3 ∧ b2.head = 0 ∧ b2.items = [10, 20] ∧
      b3.head = 1 ∧ b3.items = [30, 20] ∧ b3.size = 2 ∧
      dequeue b3 = .ok (v, b4) ∧ v = 30) ∧
    (∃ b2, run_ops (mk_buffer 2 false false true) [Op.enq (10:Int), Op.enq 20] =
        .ok (b2, []) ∧
      enqueue b2 30 = .error (.valueError "Queue is full")) := by
  exact ⟨⟨_, _, _, _, rfl, rfl, rfl, rfl, rfl, rfl, rfl, rfl, rfl⟩, _, rfl, rfl⟩

open CircularBuffer in
/-- C6 (example holds, universal part fails): the claim's concrete example is
reproduced — capacity 5, Overwrite, bulk_enqueue [1,2,3,4,5,6] leaves
[2,3,4,5,6] and bulk_dequeue 5 returns [2,3,4,5,6] — but "enqueuing beyond
capacity always retains the newest" fails: at capacity 1 (head 0),
bulk_enqueue [1,2,3] raises numpy's broadcast ValueError (the wrapped second
segment of length 2 exceeds the array) instead of retaining the newest
value. -/
theorem claim_c6_overwrite :
    (∃ b vs bf,
      bulk_enqueue (mk_buffer 5 true false false : CircularBuffer Int)
        [1, 2, 3, 4, 5, 6] = .ok b ∧
      toList b = [2, 3, 4, 5, 6] ∧
      bulk_dequeue b 5 = .ok (vs, bf) ∧ vs = [2, 3, 4, 5, 6]) ∧
    bulk_enqueue (mk_buffer 1 true false false : CircularBuffer Int) [1, 2, 3] =
      .error .broadcastError := by
  exact ⟨⟨_, _, _, rfl, rfl, rfl, rfl⟩, rfl⟩

open CircularBuffer in
/-- C7 (failing input): Grow policy, capacity 4; after enqueuing 1,2,3,4 the
buffer is full; `enqueue 5` resizes to capacity 8 and writes 5 into storage,
but the full-buffer branch of `enqueue` never increments `_size`, so size
stays 4 and `bulk_dequeue 5` returns only [1,2,3,4] — not size 5 and
[1,2,3,4,5] as the claim requires. -/
theorem claim_c7_grow_loses_value :
    ∃ b4 b5 vs bf,
      run_ops (mk_buffer 4 false true false)
        [Op.enq (1:Int), Op.enq 2, Op.enq 3, Op.enq 4] = .ok (b4, []) ∧
      enqueue b4 5 = .ok b5 ∧ b5.capacity = 8 ∧ b5.size = 4 ∧
      b5.items = [1, 2, 3, 4, 5, 0, 0, 0] ∧
      bulk_dequeue b5 5 = .ok (vs, bf) ∧ vs = [1, 2, 3, 4] := by
  exact ⟨_, _, _, _, rfl, rfl, rfl, rfl, rfl, rfl, rfl⟩

open CircularBuffer in
/-- C2 (counterexample): capacity 1, Reject policy, non-strict.
`bulk_enqueue [1, 2]` truncates and leaves contents [1], while the equivalent
two single `enqueue` calls leave contents [2] (the second single call
overwrites the stored value and advances head), so bulk_enqueue is not
equivalent to the same sequence of single enqueues. -/
theorem claim_c2_counterexample :
    ∃ bb bs,
      bulk_enqueue (mk_buffer 1 false false false : CircularBuffer Int) [1, 2] =
        .ok bb ∧
      run_ops (mk_buffer 1 false false false) [Op.enq (1:Int), Op.enq 2] =
        .ok (bs, []) ∧
      toList bb = [1] ∧ toList bs = [2] := by
  exact ⟨_, _, rfl, rfl, rfl, rfl⟩

open CircularBuffer in
/-- C5 (counterexample): strict Reject, capacity 2, holding one element 7;
`bulk_enqueue [8, 9]` exceeds the free space yet does not fail with
CapacityExceeded and does not leave the state unchanged: it truncates,
accepts 8, and the buffer ends holding [7, 8]. -/
theorem claim_c5_counterexample :
    ∃ b1 b2,
      enqueue (mk_buffer 2 false false true : CircularBuffer Int) 7 = .ok b1 ∧
      bulk_enqueue b1 [8, 9] = .ok b2 ∧ b2.size = 2 ∧ toList b2 = [7, 8] := by
  exact ⟨_, _, rfl, rfl, rfl, rfl⟩

open CircularBuffer in
/-- C9 (counterexample): a Grow buffer of capacity 2 with size 0; `resize 0`
has a non-positive integer target yet succeeds (the source only validates
`isinstance(int)`), instead of failing with InvalidArgument as claimed. -/
theorem claim_c9_counterexample :
    ∃ b', resize (mk_buffer 2 false true false : CircularBuffer Int) (some 0) =
      .ok b' ∧ b'.capacity = 0 := by
  exact ⟨_, rfl, rfl⟩

open CircularBuffer in
/-- C2 (amended): `bulk_dequeue` with a non-negative amount is equivalent to
`min(amount, size)` single dequeue calls — same values, same order, same
final state — and `bulk_enqueue` is equivalent to the same sequence of
single `enqueue` calls whenever the input fits into the free space
(`len(vs) ≤ capacity - size`); beyond the free space the two differ (see the
counterexample). -/
theorem claim_c2_amended (b : CircularBuffer Int) (vs : List Int) (m : Int)
    (hwf : WF b) (hfit : (vs.length : Int) ≤ (b.capacity : Int) - b.size)
    (hm : 0 ≤ m) :
    bulk_enqueue b vs = enqueue_list b vs ∧
    ∃ outs b', bulk_dequeue b m = .ok (outs, b') ∧
      dequeue_times b (min m b.size).toNat = .ok (outs, b') :=
  ⟨bulk_enqueue_fits b vs hwf hfit, bulk_dequeue_eq_singles b m hwf hm⟩

open CircularBuffer in
/-- Witness for C2's amended claim at a concrete instance. -/
theorem claim_c2_amended_witness :
    bulk_enqueue (⟨[7, 0], 2, 1, 0, 1, false, false, false, true⟩ : CircularBuffer Int)
        [8] =
      enqueue_list (⟨[7, 0], 2, 1, 0, 1, false, false, false, true⟩ : CircularBuffer Int)
        [8] ∧
    ∃ outs b',
      bulk_dequeue (⟨[7, 0], 2, 1, 0, 1, false, false, false, true⟩ : CircularBuffer Int)
          1 = .ok (outs, b') ∧
      dequeue_times (⟨[7, 0], 2, 1, 0, 1, false, false, false, true⟩ : CircularBuffer Int)
          (min 1 (⟨[7, 0], 2, 1, 0, 1, false, false, false, true⟩ :
            CircularBuffer Int).size).toNat = .ok (outs, b') :=
  claim_c2_amended _ [8] 1 (by decide) (by decide) (by decide)

/-! Resize reduction lemmas. -/

open CircularBuffer in
theorem resize_ok [Inhabited α] (b : CircularBuffer α) (nc : Int)
    (hr : b.RESIZE = true) (hnc : ¬(nc.toNat < b.size.toNat)) :
    resize b (some nc) = .ok { b with
      items := (List.range nc.toNat).map (fun i =>
        if i < b.size.toNat then b.items.getD ((b.tail + i) % b.capacity) default
        else default)
      capacity := nc.toNat
      head := b.size.toNat
      tail := 0
      POW_2 := pow2_check nc.toNat } := by
  unfold resize
  rw [hr]
  simp only [Bool.not_true, Bool.false_eq_true, if_false, Option.getD_some]
  rw [if_neg hnc]

open CircularBuffer in
/-- Successful `resize` to an integer target `nc ≥ size`: linearization.  The
live window is copied to the front in logical order, the remaining cells hold
the fresh-storage default, pointers are reset, and the logical contents are
unchanged. -/
theorem resize_spec [Inhabited α] (b : CircularBuffer α) (nc : Int) (hwf : WF b)
    (hr : b.RESIZE = true) (hnc : b.size ≤ nc) :
    ∃ b', resize b (some nc) = .ok b' ∧
      b'.capacity = nc.toNat ∧ b'.head = b.size.toNat ∧ b'.tail = 0 ∧
      b'.size = b.size ∧ b'.OVERWRITING = b.OVERWRITING ∧ b'.RESIZE = b.RESIZE ∧
      b'.DEBUG = b.DEBUG ∧ b'.POW_2 = pow2_check nc.toNat ∧
      b'.items.length = nc.toNat ∧
      (∀ i < b.size.toNat, b'.items[i]? =
        some (b.items.getD ((b.tail + i) % b.capacity) default)) ∧
      (∀ i, b.size.toNat ≤ i → i < nc.toNat → b'.items[i]? = some default) ∧
      b'.toList = b.toList := by
  obtain ⟨hc, hlen, hh, ht, hs0, hsc, hht, hp⟩ := hwf
  have hncn : ¬(nc.toNat < b.size.toNat) := by omega
  refine ⟨_, resize_ok b nc hr hncn, rfl, rfl, rfl, rfl, rfl, rfl, rfl, rfl,
    by simp, ?_, ?_, ?_⟩
  · intro i hi
    show ((List.range nc.toNat).map _)[i]? = _
    rw [getElem?_map_range, if_pos (by omega)]
    congr 1
    rw [if_pos hi]
  · intro i h1 h2
    show ((List.range nc.toNat).map _)[i]? = _
    rw [getElem?_map_range, if_pos h2]
    congr 1
    rw [if_neg (by omega)]
  · show (List.range b.size.toNat).map _ = (List.range b.size.toNat).map _
    apply List.map_congr_left
    intro i hi
    have hi' := List.mem_range.mp hi
    show ((List.range nc.toNat).map _).getD ((0 + i) % nc.toNat) default = _
    rw [Nat.zero_add, Nat.mod_eq_of_lt (by omega), getD_eq_getElem?,
      getElem?_map_range, if_pos (by omega)]
    simp only [Option.getD_some]
    rw [if_pos hi']

open CircularBuffer in
/-- C8: for every well-formed Grow-policy buffer and integer
`new_capacity ≥ size`, `resize` succeeds with size and logical contents
unchanged, capacity set to `new_capacity`, tail 0 and head `size`, and new
storage cell `i < size` equal to `old[(old_tail + i) mod old_capacity]`;
when the growth policy is not Grow, `resize` is a no-op. -/
theorem claim_c8_resize_spec (b : CircularBuffer Int) (nc : Int) :
    (WF b → b.RESIZE = true → b.size ≤ nc →
      ∃ b', resize b (some nc) = .ok b' ∧ b'.size = b.size ∧
        (b'.capacity : Int) = nc ∧ b'.tail = 0 ∧ b'.head = b.size.toNat ∧
        (∀ i < b.size.toNat, b'.items[i]? =
          some (b.items.getD ((b.tail + i) % b.capacity) default)) ∧
        b'.toList = b.toList) ∧
    (b.RESIZE = false → resize b (some nc) = .ok b) := by
  constructor
  · intro hwf hr hnc
    have h0 : 0 ≤ nc := le_trans hwf.2.2.2.2.1 hnc
    obtain ⟨b', hok, hcap, hhd, htl, hsz, -, -, -, -, -, hcopy, -, htoL⟩ :=
      resize_spec b nc hwf hr hnc
    exact ⟨b', hok, hsz, by rw [hcap]; omega, htl, hhd, hcopy, htoL⟩
  · intro hrf
    unfold resize
    rw [hrf]
    rfl

open CircularBuffer in
/-- Witness for C8: a Grow buffer of capacity 2 holding one element, resized
to 5; plus the no-op on a Reject buffer. -/
theorem claim_c8_resize_spec_witness :
    (∃ b', resize (⟨[7, 0], 2, 1, 0, 1, false, true, false, true⟩ : CircularBuffer Int)
        (some 5) = .ok b' ∧ b'.size = 1 ∧ (b'.capacity : Int) = 5) ∧
    resize (⟨[7, 0], 2, 1, 0, 1, false, false, false, true⟩ : CircularBuffer Int)
        (some 5) = .ok ⟨[7, 0], 2, 1, 0, 1, false, false, false, true⟩ := by
  constructor
  · obtain ⟨b', hok, hsz, hcap, -⟩ :=
      (claim_c8_resize_spec (⟨[7, 0], 2, 1, 0, 1, false, true, false, true⟩ :
        CircularBuffer Int) 5).1 (by decide) rfl (by decide)
    exact ⟨b', hok, hsz, hcap⟩
  · exact (claim_c8_resize_spec (⟨[7, 0], 2, 1, 0, 1, false, false, false, true⟩ :
      CircularBuffer Int) 5).2 rfl

open CircularBuffer in
/-- C9 (amended): for a well-formed Grow-policy buffer and an integer target
`new_capacity ≥ 0`, `resize` fails — with the IndexError escaping the copy
loop, raised before any state mutation — exactly when `new_capacity < size`;
every integer target `≥ size` succeeds, including non-positive ones. -/
theorem claim_c9_amended (b : CircularBuffer Int) (nc : Int) (hwf : WF b)
    (hr : b.RESIZE = true) (h0 : 0 ≤ nc) :
    (nc < b.size → resize b (some nc) = .error .indexError) ∧
    (b.size ≤ nc → ∃ b', resize b (some nc) = .ok b') := by
  obtain ⟨hc, hlen, hh, ht, hs0, hsc, hht, hp⟩ := hwf
  constructor
  · intro hlt
    unfold resize
    rw [hr]
    simp only [Bool.not_true, Bool.false_eq_true, if_false, Option.getD_some]
    rw [if_pos (by omega)]
  · intro hle
    exact ⟨_, resize_ok b nc hr (by omega)⟩

open CircularBuffer in
/-- Witness for C9's amended claim: `resize 0` succeeds on an empty Grow
buffer; `resize 0` fails with IndexError on a non-empty one. -/
theorem claim_c9_amended_witness :
    (∃ b', resize (mk_buffer 3 false true false : CircularBuffer Int) (some 0) =
      .ok b') ∧
    resize (⟨[7, 0, 0], 3, 1, 0, 1, false, true, false, false⟩ : CircularBuffer Int)
        (some 0) = .error .indexError := by
  constructor
  · exact (claim_c9_amended (mk_buffer 3 false true false) 0 (by decide) rfl
      (by decide)).2 (by decide)
  · exact (claim_c9_amended (⟨[7, 0, 0], 3, 1, 0, 1, false, true, false, false⟩ :
      CircularBuffer Int) 0 (by decide) rfl (by decide)).1 (by decide)

open CircularBuffer in
/-- `bulk_enqueue` under Reject policy with more input than free space (and
some free space left) truncates: it performs exactly the wrapped write of the
first `capacity - size` values. -/
theorem bulk_enqueue_reject_overflow [Inhabited α] (b : CircularBuffer α)
    (vs : List α) (hwf : WF b) (hOW : b.OVERWRITING = false)
    (hRS : b.RESIZE = false)
    (hover : (b.capacity : Int) - b.size < (vs.length : Int))
    (hsz : b.size < (b.capacity : Int)) :
    bulk_enqueue b vs = .ok { b with
      items := wrap_write b.items b.capacity b.head
        (vs.take ((b.capacity : Int) - b.size).toNat)
      head := (b.head + ((b.capacity : Int) - b.size).toNat) % b.capacity
      size := b.size + ((b.capacity : Int) - b.size).toNat } := by
  obtain ⟨hc, hlen, hh, ht, hs0, hsc, hht, hp⟩ := hwf
  have hne : vs ≠ [] := by
    intro h
    subst h
    simp at hover
    omega
  have hemp : vs.isEmpty = false := by
    cases vs with
    | nil => exact absurd rfl hne
    | cons a l => rfl
  have hdect : decide ((b.capacity : Int) - b.size < (vs.length : Int)) = true :=
    decide_eq_true hover
  have hsple : ((b.capacity : Int) - b.size).toNat ≤ vs.length := by omega
  have htkl : (vs.take ((b.capacity : Int) - b.size).toNat).length =
      ((b.capacity : Int) - b.size).toNat := by
    rw [List.length_take]
    omega
  have hov : max 0 (b.size + ((b.capacity : Int) - b.size) - (b.capacity : Int)) = 0 := by
    omega
  have hfpn : (min ((b.capacity : Int) - b.size) ((b.capacity : Int) - (b.head : Int))).toNat =
      min ((b.capacity : Int) - b.size).toNat (b.capacity - b.head) := by omega
  have hnoerr : ¬((b.capacity : Int) <
      ((b.capacity : Int) - b.size) -
        min ((b.capacity : Int) - b.size) ((b.capacity : Int) - (b.head : Int))) := by
    omega
  unfold bulk_enqueue
  rw [hemp]
  simp only [Bool.false_eq_true, if_false, hRS, Bool.false_and, hOW, Bool.not_false,
    hdect, Bool.true_and, if_true, hov]
  rw [if_neg (by omega : ¬((b.capacity : Int) - b.size ≤ 0))]
  simp only [show ((0:Int) ≠ 0) ↔ False from by simp, if_false]
  rw [if_neg hnoerr]
  rw [move_pointer_eq_mod b hp]
  by_cases hw : ((b.capacity : Int) - b.size).toNat -
      min ((b.capacity : Int) - b.size).toNat (b.capacity - b.head) = 0
  · rw [if_neg (by omega), wrap_write, if_neg (by rw [htkl]; omega), hfpn]
    congr 1
    apply CircularBuffer.ext
    · rw [htkl]
    · rfl
    · rfl
    · rfl
    · show b.size + ((b.capacity : Int) - b.size) =
        b.size + (((b.capacity : Int) - b.size).toNat : Int)
      omega
    · exact hOW
    · exact hRS
    · rfl
    · rfl
  · rw [if_pos (by omega), wrap_write, if_pos (by rw [htkl]; omega), hfpn]
    congr 1
    apply CircularBuffer.ext
    · rw [htkl]
    · rfl
    · rfl
    · rfl
    · show b.size + ((b.capacity : Int) - b.size) =
        b.size + (((b.capacity : Int) - b.size).toNat : Int)
      omega
    · exact hOW
    · exact hRS
    · rfl
    · rfl

open CircularBuffer in
/-- C5 (amended): under Reject policy (strict or not), `bulk_enqueue` with
more values than the free space never fails: it enqueues exactly the first
`capacity - size` values — the same result as single enqueues of that
truncated prefix — and drops the rest. -/
theorem claim_c5_amended (b : CircularBuffer Int) (vs : List Int) (hwf : WF b)
    (hOW : b.OVERWRITING = false) (hRS : b.RESIZE = false)
    (hover : (b.capacity : Int) - b.size < (vs.length : Int)) :
    bulk_enqueue b vs =
      enqueue_list b (vs.take ((b.capacity : Int) - b.size).toNat) := by
  have hwf' := hwf
  obtain ⟨hc, hlen, hh, ht, hs0, hsc, hht, hp⟩ := hwf'
  by_cases hfull : b.size = (b.capacity : Int)
  · -- full buffer: nothing accepted, both sides leave the state unchanged
    have hsp : ((b.capacity : Int) - b.size).toNat = 0 := by omega
    have hne : vs ≠ [] := by
      intro h
      subst h
      simp at hover
      omega
    have hemp : vs.isEmpty = false := by
      cases vs with
      | nil => exact absurd rfl hne
      | cons a l => rfl
    have hdect : decide ((b.capacity : Int) - b.size < (vs.length : Int)) = true :=
      decide_eq_true hover
    rw [hsp, List.take_zero]
    show bulk_enqueue b vs = .ok b
    unfold bulk_enqueue
    rw [hemp]
    simp only [Bool.false_eq_true, if_false, hRS, Bool.false_and, hOW, Bool.not_false,
      hdect, Bool.true_and, if_true]
    rw [if_pos (by omega : (b.capacity : Int) - b.size ≤ 0)]
  · have hsz : b.size < (b.capacity : Int) := by omega
    have hfits : (((vs.take ((b.capacity : Int) - b.size).toNat).length : Int)) ≤
        (b.capacity : Int) - b.size := by
      rw [List.length_take]
      push_cast
      omega
    have htkl : (vs.take ((b.capacity : Int) - b.size).toNat).length =
        ((b.capacity : Int) - b.size).toNat := by
      rw [List.length_take]
      omega
    have htkne : vs.take ((b.capacity : Int) - b.size).toNat ≠ [] := by
      intro hcontra
      have := congrArg List.length hcontra
      rw [htkl] at this
      simp at this
      omega
    have h2 := bulk_enqueue_eq_of_fits b (vs.take ((b.capacity : Int) - b.size).toNat)
      hwf hfits htkne
    have h3 := bulk_enqueue_fits b (vs.take ((b.capacity : Int) - b.size).toNat)
      hwf hfits
    rw [htkl] at h2
    rw [bulk_enqueue_reject_overflow b vs hwf hOW hRS hover hsz, ← h3, h2]

open CircularBuffer in
/-- Witness for C5's amended claim: the strict Reject buffer holding [7] with
a two-element bulk insert. -/
theorem claim_c5_amended_witness :
    bulk_enqueue (⟨[7, 0], 2, 1, 0, 1, false, false, true, true⟩ : CircularBuffer Int)
        [8, 9] =
      enqueue_list (⟨[7, 0], 2, 1, 0, 1, false, false, true, true⟩ : CircularBuffer Int)
        ([8, 9].take (((⟨[7, 0], 2, 1, 0, 1, false, false, true, true⟩ :
          CircularBuffer Int).capacity : Int) -
            (⟨[7, 0], 2, 1, 0, 1, false, false, true, true⟩ :
              CircularBuffer Int).size).toNat) :=
  claim_c5_amended _ [8, 9] (by decide) rfl rfl (by decide)

open CircularBuffer in
/-- C10: when both Overwrite and Grow are enabled, a single `enqueue` on a
full buffer applies Overwrite — capacity unchanged, tail advanced by one, the
oldest element dropped and the new value appended — whereas `bulk_enqueue`
with more items than free space applies Grow first: it resizes to
`max(2*capacity, size+1)` before writing, and retains all old and new
elements (stated for inputs up to one capacity, where the post-resize write
is a single segment). -/
theorem claim_c10_policy_priority (b : CircularBuffer Int) (hwf : WF b)
    (hOW : b.OVERWRITING = true) (hRS : b.RESIZE = true) :
    (∀ v : Int, b.size = (b.capacity : Int) →
      ∃ b', enqueue b v = .ok b' ∧ b'.capacity = b.capacity ∧
        b'.tail = (b.tail + 1) % b.capacity ∧ b'.size = b.size ∧
        b'.toList = b.toList.drop 1 ++ [v]) ∧
    (∀ vs : List Int, (b.capacity : Int) - b.size < (vs.length : Int) →
      vs.length ≤ b.capacity →
      ∃ b', bulk_enqueue b vs = .ok b' ∧
        (b'.capacity : Int) = max ((b.capacity : Int) * 2) (b.size + 1) ∧
        b.capacity < b'.capacity ∧ b'.toList = b.toList ++ vs) := by
  have hwfc := hwf
  obtain ⟨hc, hlen, hh, ht, hs0, hsc, hht, hp⟩ := hwfc
  constructor
  · -- single enqueue on a full buffer: Overwrite wins over Grow
    intro v hfull
    have henq : b.enqueue v =
        .ok (write_at_head { b with tail := b.move_pointer b.tail 1 } v) := by
      have hf : b.is_full = true := by
        simp only [is_full, beq_iff_eq]
        exact hfull
      unfold enqueue
      rw [hf, hOW]
      simp
    obtain ⟨bd, hdeq, hwfd, hcapd, hitd, hszd, htld, hhdd, hOd, hRd, hDd, hPd, htoLd⟩ :=
      dequeue_step_spec b hwf (by omega)
    obtain ⟨b', henq', hwf', hcap', htail', hsz', hhd', hO', hR', hD', hP', hit', htoL'⟩ :=
      enqueue_step_spec bd v hwfd (by rw [hszd, hcapd]; omega)
    have hrec : ({ bd with size := bd.size + 1 } : CircularBuffer Int) =
        { b with tail := b.move_pointer b.tail 1 } := by
      apply CircularBuffer.ext
      · exact hitd
      · exact hcapd
      · exact hhdd
      · rw [htld, move_pointer_eq_mod b hp]
      · show bd.size + 1 = b.size
        rw [hszd]
        ring
      · exact hOd
      · exact hRd
      · exact hDd
      · exact hPd
    have hstep : bd.enqueue v = .ok (write_at_head { bd with size := bd.size + 1 } v) :=
      enqueue_not_full bd v (by rw [hszd, hcapd]; omega)
    have hbv : b.enqueue v = .ok b' := by
      rw [henq, ← hrec, ← hstep]
      exact henq'
    refine ⟨b', hbv, hcap'.trans hcapd, htail'.trans htld, ?_, ?_⟩
    · rw [hsz', hszd]
      ring
    · rw [htoL', htoLd]
      simp
  · -- bulk enqueue over free space: Grow fires first
    intro vs hover hcaplen
    have hne : vs ≠ [] := by
      intro h
      subst h
      simp at hover
      omega
    have hemp : vs.isEmpty = false := by
      cases vs with
      | nil => exact absurd rfl hne
      | cons a l => rfl
    have hdect : decide ((b.capacity : Int) - b.size < (vs.length : Int)) = true :=
      decide_eq_true hover
    set nc : Int := max ((b.capacity : Int) * 2) (b.size + 1) with hncdef
    have hnc0 : 0 < nc := by omega
    have hncge : b.size ≤ nc := by omega
    obtain ⟨b1, hok, hcap1, hhd1, htl1, hsz1, hO1, hR1, hD1, hP1, hlen1, hcopy, hrest, htoL1⟩ :=
      resize_spec b nc hwf hRS hncge
    have hcast : ((nc.toNat : Nat) : Int) = nc := by omega
    have hsln : b.size.toNat + vs.length ≤ nc.toNat := by omega
    have hsum : (b.size + (vs.length : Int)).toNat = b.size.toNat + vs.length := by
      omega
    have hov1 : max 0 (b1.size + (vs.length : Int) - (b1.capacity : Int)) = 0 := by
      rw [hsz1, hcap1]
      omega
    have hfp1 : min ((vs.length : Int)) ((b1.capacity : Int) - (b1.head : Int)) =
        (vs.length : Int) := by
      rw [hcap1, hhd1]
      omega
    have htonat : ((vs.length : Int)).toNat = vs.length := by omega
    have hp1 : b1.POW_2 = pow2_check b1.capacity := by
      rw [hP1, hcap1]
    have hbound : b1.head + vs.length ≤ b1.items.length := by
      rw [hlen1, hhd1]
      exact hsln
    refine ⟨{ b1 with
        items := slice_set b1.items b1.head vs
        head := (b1.head + vs.length) % b1.capacity
        size := b1.size + (vs.length : Int) }, ?_, ?_, ?_, ?_⟩
    · -- the reduction of the bulk call
      unfold bulk_enqueue
      rw [hemp]
      simp only [Bool.false_eq_true, if_false, hRS, hdect, Bool.and_self, if_true,
        hok, hOW, Bool.not_true, Bool.false_and]
      rw [if_neg (by omega : ¬((vs.length : Int) ≤ 0))]
      simp only [hov1, show ((0:Int) ≠ 0) ↔ False from by simp, if_false, hfp1,
        sub_self]
      rw [if_neg (by rw [hcap1]; omega : ¬((b1.capacity : Int) < 0))]
      rw [move_pointer_eq_mod b1 hp1, htonat]
      simp only [List.take_length]
    · show (b1.capacity : Int) = nc
      rw [hcap1]
      exact hcast
    · show b.capacity < b1.capacity
      rw [hcap1]
      omega
    · -- all elements retained in order
      simp only [toList]
      apply List.ext_getElem?
      intro k
      rw [getElem?_map_range, List.getElem?_append]
      simp only [List.length_map, List.length_range, htl1, hsz1, hcap1, hhd1, hsum,
        Nat.zero_add]
      by_cases hk1 : k < b.size.toNat
      · rw [if_pos (by omega), if_pos hk1, Nat.mod_eq_of_lt (by omega),
          getD_eq_getElem?, slice_set_getElem? _ _ _ (by rw [hlen1]; exact hsln),
          if_neg (by omega), hcopy k hk1, getElem?_map_range, if_pos hk1]
        rfl
      · by_cases hk2 : k < b.size.toNat + vs.length
        · rw [if_pos (by omega), if_neg hk1, Nat.mod_eq_of_lt (by omega),
            getD_eq_getElem?, slice_set_getElem? _ _ _ (by rw [hlen1]; exact hsln),
            if_pos ⟨by omega, by omega⟩,
            getElem?_eq_some_getD vs _ (by omega)]
          rfl
        · rw [if_neg (by omega), if_neg hk1,
            List.getElem?_eq_none (by omega : vs.length ≤ k - b.size.toNat)]

open CircularBuffer in
/-- Witness for C10 at a concrete instance: a full capacity-2 buffer holding
[7, 9] with both flags set; single enqueue overwrites, bulk enqueue grows. -/
theorem claim_c10_policy_priority_witness :
    (∃ b', enqueue (⟨[7, 9], 2, 0, 0, 2, true, true, false, true⟩ : CircularBuffer Int)
        5 = .ok b' ∧ b'.capacity = 2 ∧ b'.tail = 1 ∧ b'.size = 2 ∧
        b'.toList = [9, 5]) ∧
    (∃ b', bulk_enqueue (⟨[7, 9], 2, 0, 0, 2, true, true, false, true⟩ : CircularBuffer Int)
        [3, 4] = .ok b' ∧ (b'.capacity : Int) = 4 ∧ b'.toList = [7, 9, 3, 4]) := by
  obtain ⟨ha, hb⟩ := claim_c10_policy_priority
    (⟨[7, 9], 2, 0, 0, 2, true, true, false, true⟩ : CircularBuffer Int)
    (by decide) rfl rfl
  constructor
  · obtain ⟨b', h1, h2, h3, h4, h5⟩ := ha 5 (by decide)
    exact ⟨b', h1, h2, h3, by rw [h4], by rw [h5]; decide⟩
  · obtain ⟨b', h1, h2, h3, h4⟩ := hb [3, 4] (by decide) (by decide)
    exact ⟨b', h1, by rw [h2]; decide, by rw [h4]; decide⟩

end PyCircularBuffer
